import Mathlib

/-!
Verification of the ConnectOnion TypeScript SDK agent-orchestration core
(src/core/agent.ts and collaborators), via a shallow embedding in Lean.

Modelling conventions:
* JavaScript runtime values passed between the loop, tools and the provider
  are modelled by the inductive `Json`.
* Thrown/rejected JS exceptions are modelled by `Except String`, carrying the
  message text that `error instanceof Error ? error.message : String(error)`
  would produce.
* Wall-clock timing, console printing and xray-context injection are pure
  side channels read by nothing in the claims; timings are recorded as 0 and
  console output is not modelled.
* The behavior log (History) is modelled as the in-memory list of entries;
  file persistence is a sink.
-/

namespace ConnectOnion

/-- JS/JSON values exchanged as tool arguments and results. Numbers are
modelled as integers (all values appearing in the code's own tests and
examples are integral). -/
inductive Json where
  | null : Json
  | bool (b : Bool) : Json
  | num (n : Int) : Json
  | str (s : String) : Json
  | arr (elems : List Json) : Json
  | obj (fields : List (String × Json)) : Json

/-- JS truthiness of a value (`if (x)`). -/
def jsTruthy : Json → Bool
  | .null => false
  | .bool b => b
  | .num n => n != 0
  | .str s => s != ""
  | .arr _ => true
  | .obj _ => true

/-- JS property access `v.k` on a value: a field lookup on objects,
`undefined` (here `none`) otherwise. -/
def getField : Json → String → Option Json
  | .obj fields, k => fields.lookup k
  | _, _ => none

/-- Truthiness of a possibly-`undefined` JS value. -/
def jsTruthyOpt : Option Json → Bool
  | none => false
  | some v => jsTruthy v

/-- One character of a JSON string literal, escaped as `JSON.stringify`
escapes it (common escapes only; other control characters do not occur in
this development). -/
def escapeJsonChar (c : Char) : String :=
  if c = '"' then "\\\""
  else if c = '\\' then "\\\\"
  else if c = '\n' then "\\n"
  else if c = '\t' then "\\t"
  else if c = '\r' then "\\r"
  else String.singleton c

/-- Escape the body of a JSON string literal. -/
def escapeJsonString (s : String) : String :=
  String.join (s.toList.map escapeJsonChar)

mutual

/-- `JSON.stringify` on a defined value. -/
def stringifyJson : Json → String
  | .null => "null"
  | .bool true => "true"
  | .bool false => "false"
  | .num n => toString n
  | .str s => "\"" ++ escapeJsonString s ++ "\""
  | .arr elems => "[" ++ stringifyJsonList elems ++ "]"
  | .obj fields => "\x7b" ++ stringifyJsonFields fields ++ "\x7d"

/-- Comma-separated serialization of array elements. -/
def stringifyJsonList : List Json → String
  | [] => ""
  | [v] => stringifyJson v
  | v :: rest => stringifyJson v ++ "," ++ stringifyJsonList rest

/-- Comma-separated serialization of object fields. -/
def stringifyJsonFields : List (String × Json) → String
  | [] => ""
  | [(k, v)] => "\"" ++ escapeJsonString k ++ "\":" ++ stringifyJson v
  | (k, v) :: rest =>
      "\"" ++ escapeJsonString k ++ "\":" ++ stringifyJson v ++ "," ++
        stringifyJsonFields rest

end

/-- `JSON.stringify` applied to a possibly-`undefined` value: JS returns
`undefined` for `undefined`. -/
def stringifyOpt : Option Json → Option String
  | none => none
  | some v => some (stringifyJson v)

/-! ## Data model (src/types.ts) -/

/-- Message roles (`'system' | 'user' | 'assistant' | 'tool'`). -/
inductive Role where
  | system
  | user
  | assistant
  | tool
deriving DecidableEq, Repr

/-- A tool call requested by the provider
(`ToolCall: {id, name, arguments}`). -/
structure ToolCall where
  id : String
  name : String
  arguments : Json

/-- A conversation message (`Message`). `content` is typed `string` in the
source but may be `undefined` at runtime (a `tool` message for a result with
no `result` field gets `JSON.stringify(undefined) = undefined`), so it is
modelled as `Option String`. -/
structure Message where
  role : Role
  content : Option String
  tool_calls : Option (List ToolCall) := none
  tool_call_id : Option String := none

/-- `ToolResult.status`. -/
inductive ToolResultStatus where
  | success
  | error
  | not_found
deriving DecidableEq, Repr

/-- `ToolResult: {status, result?, error?}`; the optional fields are absent
(`undefined`) unless set. -/
structure ToolResult where
  status : ToolResultStatus
  result? : Option Json := none
  error? : Option String := none

/-- `FunctionSchema`: the OpenAI-style schema a tool exposes; the
`parameters` JSON-schema body is carried opaquely as a `Json` value. -/
structure FunctionSchema where
  name : String
  description : String
  parameters : Json

/-- A registered tool (`Tool` interface): name, description, a `run`
operation and its function schema. `run` may throw/reject: modelled as
`Except String`, carrying the message text. The embedding works with
already-conformant `Tool` objects (the pass-through branch of
`processTools`); function/class-instance adaption is schema derivation only
and not needed by the orchestration loop. -/
structure Tool where
  name : String
  description : String
  run : Json → Except String Json
  schema : FunctionSchema
  xray : Bool := false

/-- `tool.toFunctionSchema()`. -/
def Tool.toFunctionSchema (t : Tool) : FunctionSchema := t.schema

/-- A provider response (`LLMResponse`): `content: string | null` plus the
requested tool calls (`rawResponse` is never read by the loop). -/
structure LLMResponse where
  content : Option String
  toolCalls : List ToolCall

/-- An entry of the behavior log (src/history/index.ts `BehaviorEntry`),
identified by its `type` and `data`; wall-clock timestamps are not
modelled. -/
inductive BehaviorEntry where
  | input (prompt : String)
  | llm_response (response : LLMResponse)
  | tool_call (name : String) (args : Json) (result : ToolResult) (callId : String)
  | output (output : String)

/-- An in-memory trace entry
(`{tool_name: string; timing: number; status: string}`); wall-clock timing
is recorded as 0. -/
structure TraceEntry where
  tool_name : String
  timing : Nat
  status : String

/-- The provider capability consumed by the loop:
`complete(messages, tools) → LLMResponse`, which may throw (network
failure etc.), modelled as `Except String`. -/
def LLMFun : Type :=
  List Message → List FunctionSchema → Except String LLMResponse

/-- The answers available on the interactive debug channel during one
breakpoint pause: the command line, and the replacement-arguments line read
only when the command is *edit*. -/
structure DebugIn where
  cmdAnswer : String
  editAnswer : String

/-! ## JS `Map` semantics for the tool registry

`toolMap` is a JS `Map<string, Tool>`: insertion-ordered; `set` on an
existing key updates it in place, otherwise appends; `get` finds the unique
entry. -/

/-- `Map.prototype.set`. -/
def mapSet (m : List (String × Tool)) (k : String) (v : Tool) :
    List (String × Tool) :=
  match m with
  | [] => [(k, v)]
  | (k', v') :: rest =>
      if k' = k then (k, v) :: rest else (k', v') :: mapSet rest k v

/-- `Map.prototype.get`. -/
def mapGet (m : List (String × Tool)) (k : String) : Option Tool :=
  match m with
  | [] => none
  | (k', v) :: rest => if k' = k then some v else mapGet rest k

/-- `new Map(pairs)` iterates the pairs and `set`s each one. -/
def mapFromTools (tools : List Tool) : List (String × Tool) :=
  tools.foldl (fun m t => mapSet m t.name t) []

/-! ## Agent state (the mutable fields of `class Agent`) -/

/-- The fields of an `Agent` instance that the orchestration loop reads or
writes. Console/log-file state and the trust object are side channels with
no influence on the loop. -/
structure AgentState where
  name : String
  systemPrompt : String
  maxIterations : Nat
  tools : List Tool
  toolMap : List (String × Tool)
  messages : Option (List Message) := none
  history : List BehaviorEntry := []
  trace : List TraceEntry := []
  debugEnabled : Bool := false

/-- Constructor configuration (the fields of `AgentConfig` the loop model
needs). `maxIterations` is `number | undefined`. -/
structure AgentConfig where
  name : String
  systemPrompt : Option String := none
  maxIterations : Option Nat := none
  tools : List Tool := []

/-- JS `x || d` for an optional number: `undefined` and `0` are falsy. -/
def jsOrNat (x : Option Nat) (d : Nat) : Nat :=
  match x with
  | some n => if n = 0 then d else n
  | none => d

/-- JS `s || d` for an optional string: `undefined` and `""` are falsy. -/
def jsOrStr (x : Option String) (d : String) : String :=
  match x with
  | some s => if s = "" then d else s
  | none => d

/-- `processTools` normalizes callables/class instances/Tool objects. The
embedding feeds it already-conformant `Tool` objects, which the source
passes through unchanged; schema derivation for raw callables happens
before the loop ever runs and is not modelled. -/
def processTools (tools : List Tool) : List Tool := tools

/-- `new Agent(config)` — the state-initialization part of the constructor
(file-based system prompts, console/log-file setup, LLM selection and trust
policy are external collaborators). -/
def mkAgent (config : AgentConfig) : AgentState :=
  let tools := processTools config.tools
  { name := config.name
    systemPrompt :=
      jsOrStr config.systemPrompt
        ("You are " ++ config.name ++ ", a helpful AI assistant.")
    maxIterations := jsOrNat config.maxIterations 10
    tools := tools
    toolMap := mapFromTools tools }

/-- `Agent.addTool(tool)`: process, then push each produced tool onto the
`tools` array and `set` it in the `toolMap`. -/
def addTool (st : AgentState) (tool : Tool) : AgentState :=
  let processed := processTools [tool]
  processed.foldl
    (fun s t =>
      { s with
        tools := s.tools ++ [t]
        toolMap := mapSet s.toolMap t.name t })
    st

/-! ## Single tool dispatch (`Agent.executeToolCall`) and the breakpoint -/

/-- JS whitespace, as far as the debug commands are concerned. -/
def isJsSpace (c : Char) : Bool := c = ' ' ∨ c = '\t' ∨ c = '\n' ∨ c = '\r'

/-- The platform `String.prototype.trim()`. -/
def jsTrim (s : String) : String :=
  String.mk (((s.toList.dropWhile isJsSpace).reverse.dropWhile isJsSpace).reverse)

/-- ASCII lowering of one character. -/
def charToLower (c : Char) : Char :=
  if 'A' ≤ c ∧ c ≤ 'Z' then Char.ofNat (c.toNat + 32) else c

/-- The platform `String.prototype.toLowerCase()` (ASCII; the commands
compared against are ASCII). -/
def jsToLower (s : String) : String := String.mk (s.toList.map charToLower)

/-- `Agent.pauseAtBreakpoint(tool, args)`: read a command from the debug
channel; *edit* reads a JSON line (parse failure falls back to the original
arguments), *skip* returns the sentinel object, anything else returns the
original arguments. `parseJson` models the platform `JSON.parse`. -/
def pauseAtBreakpoint (parseJson : String → Option Json) (din : DebugIn)
    (args : Json) : Json :=
  let cmd := jsToLower (jsTrim din.cmdAnswer)
  if cmd = "e" ∨ cmd = "edit" then
    match parseJson din.editAnswer with
    | some parsed => parsed
    | none => args
  else if cmd = "s" ∨ cmd = "skip" then
    Json.obj [("__skip__", Json.bool true)]
  else args

/-- The body of `executeToolCall` after the breakpoint decision: run the
tool with the (possibly edited) arguments, wrap success/thrown error as a
`ToolResult`, record it in history and trace. -/
def runToolBody (st : AgentState) (tool : Tool) (name : String) (args : Json)
    (callId : String) : ToolResult × AgentState :=
  match tool.run args with
  | .ok output =>
      let result : ToolResult := { status := .success, result? := some output }
      (result,
        { st with
          history := st.history ++ [.tool_call name args result callId]
          trace := st.trace ++ [⟨name, 0, "success"⟩] })
  | .error msg =>
      let result : ToolResult := { status := .error, error? := some msg }
      (result,
        { st with
          history := st.history ++ [.tool_call name args result callId]
          trace := st.trace ++ [⟨name, 0, "error"⟩] })

/-- `Agent.executeToolCall(name, args, callId)`: look up the tool (absent →
`not_found`, recorded, no breakpoint interaction); with debugging enabled
and an `@xray` tool, consult the breakpoint (skip → synthesized success
with the `'[debugger: skipped]'` sentinel, recorded, `run` not invoked;
a truthy non-skip answer replaces the arguments); then execute. Xray
context injection/clearing is console-side and not modelled. -/
def executeToolCall (parseJson : String → Option Json) (din : DebugIn)
    (st : AgentState) (name : String) (args : Json) (callId : String) :
    ToolResult × AgentState :=
  match mapGet st.toolMap name with
  | none =>
      let result : ToolResult :=
        { status := .not_found, error? := some ("Tool " ++ name ++ " not found") }
      (result,
        { st with history := st.history ++ [.tool_call name args result callId] })
  | some tool =>
      if st.debugEnabled ∧ tool.xray then
        let maybeArgs := pauseAtBreakpoint parseJson din args
        if jsTruthy maybeArgs ∧ jsTruthyOpt (getField maybeArgs "__skip__") then
          let result : ToolResult :=
            { status := .success, result? := some (.str "[debugger: skipped]") }
          (result,
            { st with
              history := st.history ++ [.tool_call name args result callId] })
        else
          let args' := if jsTruthy maybeArgs then maybeArgs else args
          runToolBody st tool name args' callId
      else runToolBody st tool name args callId

/-- `Agent.executeToolCalls(toolCalls)`: dispatch every call of the turn and
collect `{result, callId}` pairs in input order (`Promise.all` preserves the
input order of its result array). The pure model sequences the dispatches;
the order-independence of the concurrent fan-in is proved separately over
`turnTrace`. -/
def executeToolCalls (parseJson : String → Option Json) (din : DebugIn)
    (st : AgentState) (toolCalls : List ToolCall) :
    List (ToolResult × String) × AgentState :=
  match toolCalls with
  | [] => ([], st)
  | c :: rest =>
      let r := executeToolCall parseJson din st c.name c.arguments c.id
      let rs := executeToolCalls parseJson din r.2 rest
      ((r.1, c.id) :: rs.1, rs.2)

/-! ## The orchestration loop (`Agent.input`) -/

/-- Append a message to the (initialized) conversation
(`this.messages.push(m)`). -/
def pushMsg (st : AgentState) (m : Message) : AgentState :=
  { st with messages := some ((st.messages.getD []) ++ [m]) }

/-- The `tool`-role message appended for one result:
`{role: 'tool', content: JSON.stringify(result.result), tool_call_id: callId}`. -/
def toolMessage (result : ToolResult) (callId : String) : Message :=
  { role := .tool
    content := stringifyOpt result.result?
    tool_call_id := some callId }

/-- The tool phase of one turn (lines 255–267 of agent.ts): dispatch all
requested calls, then append one `tool` message per result. -/
def toolPhase (parseJson : String → Option Json) (din : DebugIn)
    (st : AgentState) (toolCalls : List ToolCall) : AgentState :=
  let rs := executeToolCalls parseJson din st toolCalls
  rs.1.foldl (fun s p => pushMsg s (toolMessage p.1 p.2)) rs.2

/-! ## The concurrency-refined view of one turn

`executeToolCalls` fans out all calls of a turn as concurrent promises and
`await Promise.all` is the fan-in barrier; only then does the loop append
the `tool` messages (in the input order of the results array) and re-enter
the provider. `turnTrace` makes the settlement order explicit: it is the
event trace of one turn followed by the next provider call, for a given
settlement order of the concurrent dispatches. Results are pure functions
of the registry, which the turn only reads, so each dispatch's result is
computed against the turn's entry state. -/

/-- Observable events of one turn of the loop plus the next provider call. -/
inductive TurnEvent where
  | settled (idx : Nat) (result : ToolResult)
  | appended (idx : Nat) (msg : Message)
  | providerCalled

/-- The result the dispatch of call `i` settles with. -/
def resultOfCall (parseJson : String → Option Json) (din : DebugIn)
    (st : AgentState) (calls : List ToolCall) (i : Fin calls.length) : ToolResult :=
  (executeToolCall parseJson din st (calls.get i).name (calls.get i).arguments
    (calls.get i).id).1

/-- Event trace of one turn under settlement order `order`, followed by the
next turn's provider call: the requested dispatches settle in `order`; the
fan-in barrier then releases the appends (input order); only after every
result is appended is the provider called again. -/
def turnTrace (parseJson : String → Option Json) (din : DebugIn)
    (st : AgentState) (calls : List ToolCall) (order : List (Fin calls.length)) :
    List TurnEvent :=
  order.map (fun i => .settled i.val (resultOfCall parseJson din st calls i)) ++
    (List.finRange calls.length).map
      (fun i => .appended i.val
        (toolMessage (resultOfCall parseJson din st calls i) (calls.get i).id)) ++
    [.providerCalled]

/-- The assistant message appended for a provider response:
`{role: 'assistant', content: content || '', tool_calls?}`. -/
def assistantMessage (resp : LLMResponse) : Message :=
  { role := .assistant
    content := some (jsOrStr resp.content "")
    tool_calls := if resp.toolCalls.length > 0 then some resp.toolCalls else none }

/-- JS truthiness of `string | null`. -/
def jsTruthyStr : Option String → Bool
  | none => false
  | some s => s != ""

/-- The `for (let i = 0; i < iterations; i++)` loop of `Agent.input`,
with `fuel` the remaining iterations. Each pass: call the provider (a
thrown provider error propagates, aborting the invocation with the state
mutated so far); record the response; append the assistant message when the
response is non-vacuous; then either run the tool phase and continue, or
break with the response text as final answer. Exhausted fuel leaves the
initial `finalResponse = ''`. -/
def runIterations (llm : LLMFun) (parseJson : String → Option Json)
    (din : DebugIn) (schemas : List FunctionSchema) :
    Nat → AgentState → AgentState × Except String String
  | 0, st => (st, .ok "")
  | fuel + 1, st =>
      match llm (st.messages.getD []) schemas with
      | .error e => (st, .error e)
      | .ok resp =>
          let st1 := { st with history := st.history ++ [.llm_response resp] }
          let st2 :=
            if jsTruthyStr resp.content ∨ resp.toolCalls.length > 0 then
              pushMsg st1 (assistantMessage resp)
            else st1
          if resp.toolCalls.length > 0 then
            runIterations llm parseJson din schemas fuel
              (toolPhase parseJson din st2 resp.toolCalls)
          else
            (st2, .ok (jsOrStr resp.content ""))

/-- The conversation as it stands when the loop's first provider call is
made: lazily seeded with the system message, then the user prompt
appended. -/
def conversationAfterPrompt (st : AgentState) (prompt : String) : List Message :=
  (st.messages.getD [{ role := .system, content := some st.systemPrompt }]) ++
    [{ role := .user, content := some prompt }]

/-- The pre-loop phase of `Agent.input`: record the input event, lazily
seed the conversation with the system message, and push the user message. -/
def inputPrep (st : AgentState) (prompt : String) : AgentState :=
  let st1 := { st with history := st.history ++ [BehaviorEntry.input prompt] }
  let st2 :=
    match st1.messages with
    | none =>
        { st1 with
          messages := some [{ role := .system, content := some st1.systemPrompt }] }
    | some _ => st1
  pushMsg st2 { role := .user, content := some prompt }

/-- `Agent.input(prompt, maxIterations?)`: resolve the iteration cap
(`maxIterations || this.maxIterations` — `0` is falsy), prepare the
conversation, build the tool schemas, run the loop, and — only when no
provider error propagated — record the final output. Returns the final
state together with the result (`Except.error` models the propagated
provider exception). -/
def Agent.input (llm : LLMFun) (parseJson : String → Option Json)
    (din : DebugIn) (st : AgentState) (prompt : String)
    (maxIterations? : Option Nat) : AgentState × Except String String :=
  let iterations := jsOrNat maxIterations? st.maxIterations
  let st3 := inputPrep st prompt
  let schemas := st3.tools.map Tool.toFunctionSchema
  let r := runIterations llm parseJson din schemas iterations st3
  match r.2 with
  | .error e => (r.1, .error e)
  | .ok finalResponse =>
      ({ r.1 with history := r.1.history ++ [.output finalResponse] },
        .ok finalResponse)

/-! ## Observations on the behavior log -/

/-- Is this entry a provider-response event? -/
def isLLMResponse : BehaviorEntry → Bool
  | .llm_response _ => true
  | _ => false

/-- Is this entry a final-output (completion) event? -/
def isOutput : BehaviorEntry → Bool
  | .output _ => true
  | _ => false

/-- Number of provider calls recorded in a history
(`history.addLLMResponse` fires exactly once per successful provider
round-trip). -/
def countLLMResponses (h : List BehaviorEntry) : Nat :=
  (h.filter isLLMResponse).length

/-- Number of completion records in a history. -/
def countOutputs (h : List BehaviorEntry) : Nat :=
  (h.filter isOutput).length

/-- Did an `input()` invocation return normally (no propagated provider
error)? -/
def isOkB : Except String String → Bool
  | .ok _ => true
  | .error _ => false

/-! ## Concrete fixtures (used by witnesses and counterexamples) -/

/-- A trivial parameters schema body. -/
def emptyParams : Json :=
  Json.obj [("type", .str "object"), ("properties", .obj [])]

/-- The schema of the `add` example tool. -/
def addSchema : FunctionSchema :=
  { name := "add", description := "Add two numbers.", parameters := emptyParams }

/-- The spec's example tool `add(a, b) = a + b`, as a registered Tool. -/
def addFn : Tool :=
  { name := "add"
    description := "Add two numbers."
    run := fun args =>
      match getField args "a", getField args "b" with
      | some (.num a), some (.num b) => .ok (.num (a + b))
      | _, _ => .error "add: invalid arguments"
    schema := addSchema }

/-- A tool that always throws. -/
def boomFn : Tool :=
  { name := "boom"
    description := "Always fails."
    run := fun _ => .error "Tool error"
    schema := { name := "boom", description := "Always fails.", parameters := emptyParams } }

/-- An `@xray`-flagged tool whose `run` must never be reached in the skip
scenario. -/
def xrayFn : Tool :=
  { name := "xrayTool"
    description := "Flagged for breakpoints."
    run := fun _ => .error "run was invoked"
    schema := { name := "xrayTool", description := "Flagged for breakpoints.", parameters := emptyParams }
    xray := true }

/-- A platform `JSON.parse` stand-in for scenarios that never parse. -/
def noParse : String → Option Json := fun _ => none

/-- A debug channel that always answers *continue*. -/
def dinContinue : DebugIn := { cmdAnswer := "c", editAnswer := "" }

/-- A debug channel that answers *skip*. -/
def dinSkip : DebugIn := { cmdAnswer := "s", editAnswer := "" }

/-- A provider that always requests one tool call (never terminal). -/
def llmAlwaysTools : LLMFun := fun _ _ =>
  .ok { content := none
        toolCalls := [{ id := "call_1", name := "missingTool", arguments := .obj [] }] }

/-- A provider that immediately answers with text. -/
def llmText : LLMFun := fun _ _ =>
  .ok { content := some "Hello, I am a test response", toolCalls := [] }

/-- A provider that always throws (network failure). -/
def llmFail : LLMFun := fun _ _ => .error "provider down"

/-- Is this a `tool`-role message? -/
def isToolMsg (m : Message) : Bool :=
  match m.role with
  | .tool => true
  | _ => false

/-- A scripted provider: first requests `add({a:5, b:3})`, and once a tool
message is present in the conversation answers with text. -/
def llmAddScript : LLMFun := fun msgs _ =>
  if msgs.any isToolMsg then
    .ok { content := some "The sum is 8", toolCalls := [] }
  else
    .ok { content := none
          toolCalls := [{ id := "call_add_1", name := "add"
                          arguments := .obj [("a", .num 5), ("b", .num 3)] }] }

/-- A small agent configuration with the `add` tool. -/
def addAgentCfg : AgentConfig :=
  { name := "calc", systemPrompt := some "You are a calculator.", tools := [addFn] }

/-- The `tool` messages one turn appends for its requested calls, in input
order (each dispatch result computed against the turn's entry state). -/
def turnToolMessages (pj : String → Option Json) (din : DebugIn)
    (st : AgentState) (calls : List ToolCall) : List Message :=
  calls.map (fun c =>
    toolMessage (executeToolCall pj din st c.name c.arguments c.id).1 c.id)

/-- First registration under the name `dup`. -/
def dupSchemaA : FunctionSchema :=
  { name := "dup", description := "first", parameters := Json.obj [("variant", .str "A")] }

/-- Second registration under the name `dup`. -/
def dupSchemaB : FunctionSchema :=
  { name := "dup", description := "second", parameters := Json.obj [("variant", .str "B")] }

/-- First tool registered as `dup`. -/
def dupA : Tool :=
  { name := "dup", description := "first", run := fun _ => .ok (.str "A")
    schema := dupSchemaA }

/-- Second tool registered as `dup`. -/
def dupB : Tool :=
  { name := "dup", description := "second", run := fun _ => .ok (.str "B")
    schema := dupSchemaB }

/-- An agent constructed with no tools. -/
def emptyAgent : AgentState := mkAgent { name := "a" }

/-- The spec's example request: `add` with `{a: 5, b: 3}`. -/
def addCall : ToolCall :=
  { id := "call_add_1", name := "add"
    arguments := .obj [("a", .num 5), ("b", .num 3)] }

/-- The `add` agent with an initialized (empty) conversation. -/
def stWithAdd : AgentState := { mkAgent addAgentCfg with messages := some [] }

/-- A second, independent call requested in the same turn. -/
def missCall : ToolCall :=
  { id := "call_2", name := "missingTool", arguments := .obj [] }

/-! ## Helper lemmas: what one dispatch does and does not touch -/

theorem countLLM_append (h₁ h₂ : List BehaviorEntry) :
    countLLMResponses (h₁ ++ h₂) = countLLMResponses h₁ + countLLMResponses h₂ := by
  simp [countLLMResponses, List.filter_append]

theorem countOut_append (h₁ h₂ : List BehaviorEntry) :
    countOutputs (h₁ ++ h₂) = countOutputs h₁ + countOutputs h₂ := by
  simp [countOutputs, List.filter_append]

theorem countLLM_toolCall (n : String) (a : Json) (r : ToolResult) (i : String) :
    countLLMResponses [.tool_call n a r i] = 0 := rfl

theorem countOut_toolCall (n : String) (a : Json) (r : ToolResult) (i : String) :
    countOutputs [.tool_call n a r i] = 0 := rfl

/-- A dispatch only appends to `history` and `trace`; every other field of
the agent is untouched. -/
theorem executeToolCall_shape (pj : String → Option Json) (din : DebugIn)
    (st : AgentState) (n : String) (a : Json) (i : String) :
    ∃ a' r ts,
      (executeToolCall pj din st n a i).2 =
        { st with
          history := st.history ++ [.tool_call n a' r i]
          trace := st.trace ++ ts } := by
  unfold executeToolCall runToolBody
  cases hm : mapGet st.toolMap n with
  | none =>
      exact ⟨a, { status := .not_found, error? := some ("Tool " ++ n ++ " not found") },
        [], by simp⟩
  | some tool =>
      by_cases hdbg : st.debugEnabled ∧ tool.xray
      · simp only [hdbg, if_true]
        by_cases hskip :
            jsTruthy (pauseAtBreakpoint pj din a) ∧
              jsTruthyOpt (getField (pauseAtBreakpoint pj din a) "__skip__")
        · simp only [hskip, if_true]
          exact ⟨a, { status := .success, result? := some (.str "[debugger: skipped]") },
            [], by simp⟩
        · simp only [hskip, if_false]
          cases hr : tool.run (if jsTruthy (pauseAtBreakpoint pj din a) then
              pauseAtBreakpoint pj din a else a) with
          | ok output =>
              exact ⟨if jsTruthy (pauseAtBreakpoint pj din a) then
                  pauseAtBreakpoint pj din a else a,
                { status := .success, result? := some output },
                [⟨n, 0, "success"⟩], by simp [hr]⟩
          | error msg =>
              exact ⟨if jsTruthy (pauseAtBreakpoint pj din a) then
                  pauseAtBreakpoint pj din a else a,
                { status := .error, error? := some msg },
                [⟨n, 0, "error"⟩], by simp [hr]⟩
      · simp only [hdbg, if_false]
        cases hr : tool.run a with
        | ok output =>
            exact ⟨a, { status := .success, result? := some output },
              [⟨n, 0, "success"⟩], by simp [hr]⟩
        | error msg =>
            exact ⟨a, { status := .error, error? := some msg },
              [⟨n, 0, "error"⟩], by simp [hr]⟩

theorem executeToolCall_messages (pj : String → Option Json) (din : DebugIn)
    (st : AgentState) (n : String) (a : Json) (i : String) :
    (executeToolCall pj din st n a i).2.messages = st.messages := by
  obtain ⟨a', r, ts, h⟩ := executeToolCall_shape pj din st n a i
  rw [h]

theorem executeToolCall_toolMap (pj : String → Option Json) (din : DebugIn)
    (st : AgentState) (n : String) (a : Json) (i : String) :
    (executeToolCall pj din st n a i).2.toolMap = st.toolMap := by
  obtain ⟨a', r, ts, h⟩ := executeToolCall_shape pj din st n a i
  rw [h]

theorem executeToolCall_debugEnabled (pj : String → Option Json) (din : DebugIn)
    (st : AgentState) (n : String) (a : Json) (i : String) :
    (executeToolCall pj din st n a i).2.debugEnabled = st.debugEnabled := by
  obtain ⟨a', r, ts, h⟩ := executeToolCall_shape pj din st n a i
  rw [h]

theorem executeToolCall_tools (pj : String → Option Json) (din : DebugIn)
    (st : AgentState) (n : String) (a : Json) (i : String) :
    (executeToolCall pj din st n a i).2.tools = st.tools := by
  obtain ⟨a', r, ts, h⟩ := executeToolCall_shape pj din st n a i
  rw [h]

theorem executeToolCall_countLLM (pj : String → Option Json) (din : DebugIn)
    (st : AgentState) (n : String) (a : Json) (i : String) :
    countLLMResponses (executeToolCall pj din st n a i).2.history =
      countLLMResponses st.history := by
  obtain ⟨a', r, ts, h⟩ := executeToolCall_shape pj din st n a i
  rw [h]
  simp [countLLM_append, countLLM_toolCall]

theorem executeToolCall_countOut (pj : String → Option Json) (din : DebugIn)
    (st : AgentState) (n : String) (a : Json) (i : String) :
    countOutputs (executeToolCall pj din st n a i).2.history =
      countOutputs st.history := by
  obtain ⟨a', r, ts, h⟩ := executeToolCall_shape pj din st n a i
  rw [h]
  simp [countOut_append, countOut_toolCall]

/-- A dispatch's result is a function of the registry and the debug flag
only; two states agreeing on those yield the same result. -/
theorem executeToolCall_result_congr (pj : String → Option Json) (din : DebugIn)
    (st st' : AgentState) (n : String) (a : Json) (i : String)
    (hmap : st.toolMap = st'.toolMap) (hdbg : st.debugEnabled = st'.debugEnabled) :
    (executeToolCall pj din st n a i).1 = (executeToolCall pj din st' n a i).1 := by
  unfold executeToolCall runToolBody
  rw [hmap, hdbg]
  cases mapGet st'.toolMap n with
  | none => rfl
  | some tool =>
      by_cases h : st'.debugEnabled ∧ tool.xray
      · simp only [h, if_true]
        by_cases hskip :
            jsTruthy (pauseAtBreakpoint pj din a) ∧
              jsTruthyOpt (getField (pauseAtBreakpoint pj din a) "__skip__")
        · simp [hskip]
        · simp only [hskip, if_false]
          cases tool.run (if jsTruthy (pauseAtBreakpoint pj din a) then
              pauseAtBreakpoint pj din a else a) <;> rfl
      · simp only [h, if_false]
        cases tool.run a <;> rfl

/-! ## Helper lemmas: the fan-out/fan-in of one turn -/

/-- The results collected by `Promise.all` are, in input order, exactly the
per-call dispatch results (each computed against the turn's entry state:
dispatches only mutate history/trace, which results do not read). The final
state preserves every field a dispatch preserves. -/
theorem executeToolCalls_spec (pj : String → Option Json) (din : DebugIn)
    (st : AgentState) (calls : List ToolCall) :
    (executeToolCalls pj din st calls).1 =
      calls.map (fun c => ((executeToolCall pj din st c.name c.arguments c.id).1, c.id)) ∧
    (executeToolCalls pj din st calls).2.messages = st.messages ∧
    (executeToolCalls pj din st calls).2.toolMap = st.toolMap ∧
    (executeToolCalls pj din st calls).2.debugEnabled = st.debugEnabled ∧
    (executeToolCalls pj din st calls).2.tools = st.tools ∧
    countLLMResponses (executeToolCalls pj din st calls).2.history =
      countLLMResponses st.history ∧
    countOutputs (executeToolCalls pj din st calls).2.history =
      countOutputs st.history := by
  induction calls generalizing st with
  | nil => simp [executeToolCalls]
  | cons c rest ih =>
      have h1 := executeToolCall_messages pj din st c.name c.arguments c.id
      have h2 := executeToolCall_toolMap pj din st c.name c.arguments c.id
      have h3 := executeToolCall_debugEnabled pj din st c.name c.arguments c.id
      have h4 := executeToolCall_tools pj din st c.name c.arguments c.id
      have h5 := executeToolCall_countLLM pj din st c.name c.arguments c.id
      have h6 := executeToolCall_countOut pj din st c.name c.arguments c.id
      obtain ⟨ih1, ih2, ih3, ih4, ih5, ih6, ih7⟩ :=
        ih (executeToolCall pj din st c.name c.arguments c.id).2
      have hcongr : ∀ c' : ToolCall,
          (executeToolCall pj din
            (executeToolCall pj din st c.name c.arguments c.id).2
            c'.name c'.arguments c'.id).1 =
          (executeToolCall pj din st c'.name c'.arguments c'.id).1 := by
        intro c'
        exact executeToolCall_result_congr pj din _ st c'.name c'.arguments c'.id h2 h3
      refine ⟨?_, ?_, ?_, ?_, ?_, ?_, ?_⟩ <;>
        simp only [executeToolCalls, List.map_cons, ih1, ih2, ih3, ih4, ih5, ih6, ih7,
          h1, h2, h3, h4, h5, h6]
      have hmap : rest.map (fun c' =>
          ((executeToolCall pj din
            (executeToolCall pj din st c.name c.arguments c.id).2
            c'.name c'.arguments c'.id).1, c'.id)) =
        rest.map (fun c' =>
          ((executeToolCall pj din st c'.name c'.arguments c'.id).1, c'.id)) :=
        List.map_congr_left (fun c' _ => by rw [hcongr c'])
      rw [hmap]

/-- Folding the per-result message pushes over a result list appends the
corresponding `tool` messages in order, touching nothing else (stated for
an initialized conversation, which is the only state the loop reaches this
code in). -/
theorem foldl_pushMsg_spec (l : List (ToolResult × String)) :
    ∀ (st : AgentState) (msgs : List Message), st.messages = some msgs →
    (l.foldl (fun s p => pushMsg s (toolMessage p.1 p.2)) st).messages =
      some (msgs ++ l.map (fun p => toolMessage p.1 p.2)) ∧
    (l.foldl (fun s p => pushMsg s (toolMessage p.1 p.2)) st).history = st.history ∧
    (l.foldl (fun s p => pushMsg s (toolMessage p.1 p.2)) st).toolMap = st.toolMap ∧
    (l.foldl (fun s p => pushMsg s (toolMessage p.1 p.2)) st).debugEnabled =
      st.debugEnabled ∧
    (l.foldl (fun s p => pushMsg s (toolMessage p.1 p.2)) st).tools = st.tools := by
  induction l with
  | nil =>
      intro st msgs hm
      simpa using hm
  | cons p rest ih =>
      intro st msgs hm
      obtain ⟨ih1, ih2, ih3, ih4, ih5⟩ :=
        ih (pushMsg st (toolMessage p.1 p.2)) (msgs ++ [toolMessage p.1 p.2])
          (by simp [pushMsg, hm])
      refine ⟨?_, ?_, ?_, ?_, ?_⟩
      · rw [List.foldl_cons, ih1]
        simp
      · rw [List.foldl_cons, ih2]
        rfl
      · rw [List.foldl_cons, ih3]
        rfl
      · rw [List.foldl_cons, ih4]
        rfl
      · rw [List.foldl_cons, ih5]
        rfl

/-- The tool phase of a turn appends exactly one `tool` message per
requested call, in input order, each carrying the dispatch result of its
call; registry, debug flag, tools and the provider-call/output counts of the
history are untouched. -/
theorem toolPhase_spec (pj : String → Option Json) (din : DebugIn)
    (st : AgentState) (calls : List ToolCall) (msgs : List Message)
    (hm : st.messages = some msgs) :
    (toolPhase pj din st calls).messages =
      some (msgs ++
        calls.map (fun c =>
          toolMessage (executeToolCall pj din st c.name c.arguments c.id).1 c.id)) ∧
    (toolPhase pj din st calls).toolMap = st.toolMap ∧
    (toolPhase pj din st calls).debugEnabled = st.debugEnabled ∧
    (toolPhase pj din st calls).tools = st.tools ∧
    countLLMResponses (toolPhase pj din st calls).history =
      countLLMResponses st.history ∧
    countOutputs (toolPhase pj din st calls).history = countOutputs st.history := by
  obtain ⟨e1, e2, e3, e4, e5, e6, e7⟩ := executeToolCalls_spec pj din st calls
  obtain ⟨f1, f2, f3, f4, f5⟩ :=
    foldl_pushMsg_spec (executeToolCalls pj din st calls).1
      (executeToolCalls pj din st calls).2 msgs (by rw [e2, hm])
  unfold toolPhase
  refine ⟨?_, ?_, ?_, ?_, ?_, ?_⟩
  · rw [f1, e1, List.map_map]
    rfl
  · rw [f3, e3]
  · rw [f4, e4]
  · rw [f5, e5]
  · rw [f2, e6]
  · rw [f2, e7]

/-! ## Helper lemmas: the iteration loop -/

theorem countLLM_llmResponse (r : LLMResponse) :
    countLLMResponses [.llm_response r] = 1 := rfl

theorem countOut_llmResponse (r : LLMResponse) :
    countOutputs [.llm_response r] = 0 := rfl

theorem pushMsg_history (st : AgentState) (m : Message) :
    (pushMsg st m).history = st.history := rfl

theorem pushMsg_messages (st : AgentState) (m : Message) :
    (pushMsg st m).messages = some (st.messages.getD [] ++ [m]) := rfl

/-- Against a provider that always requests at least one tool call, the
loop consumes all its fuel, makes exactly `fuel` provider calls and ends
with the initial empty `finalResponse`. -/
theorem runIterations_always (llm : LLMFun) (pj : String → Option Json)
    (din : DebugIn) (schemas : List FunctionSchema)
    (H : ∀ msgs schemas', ∃ r, llm msgs schemas' = .ok r ∧ r.toolCalls ≠ []) :
    ∀ (fuel : Nat) (st : AgentState),
      (runIterations llm pj din schemas fuel st).2 = .ok "" ∧
      countLLMResponses (runIterations llm pj din schemas fuel st).1.history =
        countLLMResponses st.history + fuel := by
  intro fuel
  induction fuel with
  | zero => intro st; exact ⟨rfl, by simp [runIterations]⟩
  | succ n ih =>
      intro st
      obtain ⟨r, hr, hne⟩ := H (st.messages.getD []) schemas
      have hlen : r.toolCalls.length > 0 := List.length_pos.mpr hne
      have hcond : (jsTruthyStr r.content ∨ r.toolCalls.length > 0) := Or.inr hlen
      simp only [runIterations, hr, if_pos hcond, if_pos hlen]
      set st1 : AgentState :=
        { st with history := st.history ++ [.llm_response r] } with hst1
      set st2 := pushMsg st1 (assistantMessage r) with hst2
      obtain ⟨t1, t2, t3, t4, t5, t6⟩ :=
        toolPhase_spec pj din st2 r.toolCalls
          (st1.messages.getD [] ++ [assistantMessage r]) rfl
      obtain ⟨ih1, ih2⟩ := ih (toolPhase pj din st2 r.toolCalls)
      refine ⟨ih1, ?_⟩
      rw [ih2, t5]
      have : countLLMResponses st2.history = countLLMResponses st.history + 1 := by
        rw [hst2, pushMsg_history, hst1]
        simp [countLLM_append, countLLM_llmResponse]
      rw [this]
      omega

/-- When the provider never throws, the loop never throws: its result is
always `.ok`. -/
theorem runIterations_ok (llm : LLMFun) (pj : String → Option Json)
    (din : DebugIn) (schemas : List FunctionSchema)
    (H : ∀ msgs schemas', ∃ r, llm msgs schemas' = .ok r) :
    ∀ (fuel : Nat) (st : AgentState),
      ∃ s, (runIterations llm pj din schemas fuel st).2 = .ok s := by
  intro fuel
  induction fuel with
  | zero => intro st; exact ⟨"", rfl⟩
  | succ n ih =>
      intro st
      obtain ⟨r, hr⟩ := H (st.messages.getD []) schemas
      by_cases hlen : r.toolCalls.length > 0
      · have hcond : (jsTruthyStr r.content ∨ r.toolCalls.length > 0) := Or.inr hlen
        simp only [runIterations, hr, if_pos hcond, if_pos hlen]
        exact ih _
      · simp only [runIterations, hr, if_neg hlen]
        exact ⟨_, rfl⟩

/-- No pass of the loop ever records a completion event: whatever the
provider and tools do, the output counts of the history are unchanged by
`runIterations`. -/
theorem runIterations_countOut (llm : LLMFun) (pj : String → Option Json)
    (din : DebugIn) (schemas : List FunctionSchema) :
    ∀ (fuel : Nat) (st : AgentState),
      countOutputs (runIterations llm pj din schemas fuel st).1.history =
        countOutputs st.history := by
  intro fuel
  induction fuel with
  | zero => intro st; simp [runIterations]
  | succ n ih =>
      intro st
      cases hr : llm (st.messages.getD []) schemas with
      | error e => simp [runIterations, hr]
      | ok r =>
          have hst1 : countOutputs
              (({ st with history := st.history ++ [.llm_response r] } :
                AgentState)).history = countOutputs st.history := by
            simp [countOut_append, countOut_llmResponse]
          by_cases hlen : r.toolCalls.length > 0
          · have hcond : (jsTruthyStr r.content ∨ r.toolCalls.length > 0) :=
              Or.inr hlen
            simp only [runIterations, hr, if_pos hcond, if_pos hlen]
            rw [ih]
            obtain ⟨t1, t2, t3, t4, t5, t6⟩ :=
              toolPhase_spec pj din
                (pushMsg { st with history := st.history ++ [.llm_response r] }
                  (assistantMessage r))
                r.toolCalls
                (({ st with history := st.history ++ [.llm_response r] } :
                  AgentState).messages.getD [] ++ [assistantMessage r]) rfl
            rw [t6, pushMsg_history]
            exact hst1
          · simp only [runIterations, hr, if_neg hlen]
            by_cases hcond : (jsTruthyStr r.content ∨ r.toolCalls.length > 0)
            · simp only [if_pos hcond]
              rw [pushMsg_history]
              exact hst1
            · simp only [if_neg hcond]
              exact hst1

/-- A terminal first response (text, no tool calls) ends the loop on the
spot with exactly one provider call and that text as the answer. -/
theorem runIterations_terminal (llm : LLMFun) (pj : String → Option Json)
    (din : DebugIn) (schemas : List FunctionSchema) (fuel : Nat)
    (st : AgentState) (s : String)
    (hr : llm (st.messages.getD []) schemas = .ok { content := some s, toolCalls := [] })
    (hs : s ≠ "") :
    (runIterations llm pj din schemas (fuel + 1) st).2 = .ok s ∧
    countLLMResponses (runIterations llm pj din schemas (fuel + 1) st).1.history =
      countLLMResponses st.history + 1 := by
  have hlen : ¬((([] : List ToolCall)).length > 0) := by simp
  have hcond : (jsTruthyStr (some s) ∨ (([] : List ToolCall)).length > 0) := by
    simp [jsTruthyStr, hs]
  simp only [runIterations, hr, if_pos hcond, if_neg hlen]
  constructor
  · simp [jsOrStr, hs]
  · rw [pushMsg_history]
    simp [countLLM_append, countLLM_llmResponse]

/-- The pre-loop phase records one input event (not a provider call, not a
completion), leaves the registry, tools, debug flag and cap alone, and
produces the conversation `conversationAfterPrompt`. -/
theorem inputPrep_spec (st : AgentState) (prompt : String) :
    (inputPrep st prompt).messages = some (conversationAfterPrompt st prompt) ∧
    (inputPrep st prompt).tools = st.tools ∧
    (inputPrep st prompt).toolMap = st.toolMap ∧
    (inputPrep st prompt).debugEnabled = st.debugEnabled ∧
    countLLMResponses (inputPrep st prompt).history = countLLMResponses st.history ∧
    countOutputs (inputPrep st prompt).history = countOutputs st.history := by
  unfold inputPrep conversationAfterPrompt
  cases hm : st.messages with
  | none =>
      refine ⟨?_, rfl, rfl, rfl, ?_, ?_⟩ <;>
        simp [pushMsg, pushMsg_history, hm, countLLM_append, countOut_append,
          countLLMResponses, countOutputs, isLLMResponse, isOutput]
  | some l =>
      refine ⟨?_, rfl, rfl, rfl, ?_, ?_⟩ <;>
        simp [pushMsg, pushMsg_history, hm, countLLM_append, countOut_append,
          countLLMResponses, countOutputs, isLLMResponse, isOutput]

/-! ## Claim theorems -/

/-- C1: for every prompt and every provider whose responses always contain
at least one tool call, `input(prompt, maxIterations)` with a positive
`maxIterations` calls the provider exactly `maxIterations` times and
returns the empty string — the defined fallback, not an exception. -/
theorem bounded_iteration_exhausts_cap (llm : LLMFun) (pj : String → Option Json)
    (din : DebugIn) (st : AgentState) (prompt : String) (n : Nat)
    (hn : 0 < n)
    (H : ∀ msgs schemas, ∃ r, llm msgs schemas = .ok r ∧ r.toolCalls ≠ []) :
    (Agent.input llm pj din st prompt (some n)).2 = .ok "" ∧
    countLLMResponses (Agent.input llm pj din st prompt (some n)).1.history =
      countLLMResponses st.history + n := by
  have hit : jsOrNat (some n) st.maxIterations = n := by
    simp [jsOrNat, Nat.pos_iff_ne_zero.mp hn]
  obtain ⟨p1, p2, p3, p4, p5, p6⟩ := inputPrep_spec st prompt
  obtain ⟨r1, r2⟩ := runIterations_always llm pj din
    ((inputPrep st prompt).tools.map Tool.toFunctionSchema) H n (inputPrep st prompt)
  simp only [Agent.input]
  rw [hit, r1]
  refine ⟨rfl, ?_⟩
  simp only [countLLM_append, r2, p5]
  simp [countLLMResponses, isLLMResponse]

theorem bounded_iteration_exhausts_cap_witness :
    (Agent.input llmAlwaysTools noParse dinContinue (mkAgent addAgentCfg) "go"
      (some 3)).2 = .ok "" ∧
    countLLMResponses (Agent.input llmAlwaysTools noParse dinContinue
      (mkAgent addAgentCfg) "go" (some 3)).1.history =
      countLLMResponses (mkAgent addAgentCfg).history + 3 :=
  bounded_iteration_exhausts_cap llmAlwaysTools noParse dinContinue
    (mkAgent addAgentCfg) "go" 3 (by decide)
    (fun _ _ =>
      ⟨{ content := none
         toolCalls := [{ id := "call_1", name := "missingTool", arguments := .obj [] }] },
        rfl, List.cons_ne_nil _ _⟩)

/-- C10: `input(prompt, 0)` does not run zero iterations: the falsy `0`
override is ignored by `maxIterations || this.maxIterations`, so the loop
runs with the configured cap, which defaults to 10 when none was
configured; likewise `maxIterations: 0` at construction yields the default
cap 10. -/
theorem falsy_zero_override_uses_default_cap (llm : LLMFun)
    (pj : String → Option Json) (din : DebugIn) (cfg : AgentConfig)
    (prompt : String)
    (hcfg : cfg.maxIterations = none)
    (H : ∀ msgs schemas, ∃ r, llm msgs schemas = .ok r ∧ r.toolCalls ≠ []) :
    (mkAgent cfg).maxIterations = 10 ∧
    (mkAgent { cfg with maxIterations := some 0 }).maxIterations = 10 ∧
    (Agent.input llm pj din (mkAgent cfg) prompt (some 0)).2 = .ok "" ∧
    countLLMResponses
      (Agent.input llm pj din (mkAgent cfg) prompt (some 0)).1.history = 10 := by
  have hcap : (mkAgent cfg).maxIterations = 10 := by
    simp [mkAgent, hcfg, jsOrNat]
  have hit : jsOrNat (some 0) (mkAgent cfg).maxIterations = 10 := by
    simp [jsOrNat, hcap]
  obtain ⟨p1, p2, p3, p4, p5, p6⟩ := inputPrep_spec (mkAgent cfg) prompt
  obtain ⟨r1, r2⟩ := runIterations_always llm pj din
    ((inputPrep (mkAgent cfg) prompt).tools.map Tool.toFunctionSchema) H 10
    (inputPrep (mkAgent cfg) prompt)
  refine ⟨hcap, by simp [mkAgent, jsOrNat], ?_, ?_⟩
  · simp only [Agent.input]
    rw [hit, r1]
  · simp only [Agent.input]
    rw [hit, r1]
    simp only [countLLM_append, r2, p5]
    simp [mkAgent, countLLMResponses, isLLMResponse]

theorem falsy_zero_override_uses_default_cap_witness :
    (mkAgent addAgentCfg).maxIterations = 10 ∧
    (mkAgent { addAgentCfg with maxIterations := some 0 }).maxIterations = 10 ∧
    (Agent.input llmAlwaysTools noParse dinContinue (mkAgent addAgentCfg) "go"
      (some 0)).2 = .ok "" ∧
    countLLMResponses (Agent.input llmAlwaysTools noParse dinContinue
      (mkAgent addAgentCfg) "go" (some 0)).1.history = 10 :=
  falsy_zero_override_uses_default_cap llmAlwaysTools noParse dinContinue
    addAgentCfg "go" rfl
    (fun _ _ =>
      ⟨{ content := none
         toolCalls := [{ id := "call_1", name := "missingTool", arguments := .obj [] }] },
        rfl, List.cons_ne_nil _ _⟩)

/-- C8: if the provider's first response to an `input()` call has non-empty
content and an empty tool-call list, exactly one provider call occurs and
the returned string equals that response's content. -/
theorem termination_on_text (llm : LLMFun) (pj : String → Option Json)
    (din : DebugIn) (st : AgentState) (prompt : String)
    (mi : Option Nat) (s : String)
    (hcap : 0 < jsOrNat mi st.maxIterations)
    (hr : llm (conversationAfterPrompt st prompt)
        (st.tools.map Tool.toFunctionSchema) =
      .ok { content := some s, toolCalls := [] })
    (hs : s ≠ "") :
    (Agent.input llm pj din st prompt mi).2 = .ok s ∧
    countLLMResponses (Agent.input llm pj din st prompt mi).1.history =
      countLLMResponses st.history + 1 := by
  obtain ⟨p1, p2, p3, p4, p5, p6⟩ := inputPrep_spec st prompt
  obtain ⟨m, hm⟩ : ∃ m, jsOrNat mi st.maxIterations = m + 1 :=
    ⟨jsOrNat mi st.maxIterations - 1, (Nat.succ_pred_eq_of_pos hcap).symm⟩
  have hr' : llm ((inputPrep st prompt).messages.getD [])
      ((inputPrep st prompt).tools.map Tool.toFunctionSchema) =
      .ok { content := some s, toolCalls := [] } := by
    rw [p1, p2]
    exact hr
  obtain ⟨t1, t2⟩ := runIterations_terminal llm pj din
    ((inputPrep st prompt).tools.map Tool.toFunctionSchema) m
    (inputPrep st prompt) s hr' hs
  simp only [Agent.input]
  rw [hm, t1]
  refine ⟨rfl, ?_⟩
  simp only [countLLM_append, t2, p5]
  simp [countLLMResponses, isLLMResponse]

theorem termination_on_text_witness :
    (Agent.input llmText noParse dinContinue (mkAgent addAgentCfg) "Hello"
      none).2 = .ok "Hello, I am a test response" ∧
    countLLMResponses (Agent.input llmText noParse dinContinue
      (mkAgent addAgentCfg) "Hello" none).1.history =
      countLLMResponses (mkAgent addAgentCfg).history + 1 :=
  termination_on_text llmText noParse dinContinue (mkAgent addAgentCfg) "Hello"
    none "Hello, I am a test response" (by decide) rfl (by decide)

/-- C2: a registered tool whose `run` throws or rejects yields a ToolResult
with status `'error'` carrying the captured message, and — the provider
itself never failing — the enclosing `input()` still returns normally
(tool failures never propagate as exceptions). -/
theorem tool_error_isolated (llm : LLMFun) (pj : String → Option Json)
    (din : DebugIn) (st : AgentState) (prompt : String) (mi : Option Nat)
    (name : String) (args : Json) (callId : String) (tool : Tool) (msg : String)
    (hdbg : st.debugEnabled = false)
    (hlookup : mapGet st.toolMap name = some tool)
    (hrun : tool.run args = .error msg)
    (HOK : ∀ msgs schemas, ∃ r, llm msgs schemas = .ok r) :
    (executeToolCall pj din st name args callId).1 =
      { status := .error, result? := none, error? := some msg } ∧
    ∃ s, (Agent.input llm pj din st prompt mi).2 = .ok s := by
  constructor
  · simp [executeToolCall, runToolBody, hlookup, hdbg, hrun]
  · obtain ⟨s, hs⟩ := runIterations_ok llm pj din
      ((inputPrep st prompt).tools.map Tool.toFunctionSchema) HOK
      (jsOrNat mi st.maxIterations) (inputPrep st prompt)
    refine ⟨s, ?_⟩
    simp only [Agent.input]
    rw [hs]

theorem tool_error_isolated_witness :
    (executeToolCall noParse dinContinue
      (mkAgent { name := "t", tools := [boomFn] }) "boom" (.obj []) "call_1").1 =
      { status := .error, result? := none, error? := some "Tool error" } ∧
    ∃ s, (Agent.input llmText noParse dinContinue
      (mkAgent { name := "t", tools := [boomFn] }) "go" none).2 = .ok s :=
  tool_error_isolated llmText noParse dinContinue
    (mkAgent { name := "t", tools := [boomFn] }) "go" none "boom" (.obj [])
    "call_1" boomFn "Tool error" rfl rfl rfl
    (fun _ _ => ⟨{ content := some "Hello, I am a test response", toolCalls := [] }, rfl⟩)

/-- C7: a requested call whose name is not in the registry immediately
yields a `not_found` ToolResult — without raising and without any
breakpoint interaction (the outcome is independent of the debug channel) —
and the turn still appends a `tool`-role message for that call so the
provider receives it. -/
theorem unknown_tool_not_found (pj : String → Option Json) (din : DebugIn)
    (st : AgentState) (name : String) (args : Json) (callId : String)
    (msgs : List Message)
    (hlookup : mapGet st.toolMap name = none)
    (hm : st.messages = some msgs) :
    (executeToolCall pj din st name args callId).1 =
      { status := .not_found, result? := none
        error? := some ("Tool " ++ name ++ " not found") } ∧
    (∀ din', executeToolCall pj din' st name args callId =
      executeToolCall pj din st name args callId) ∧
    (toolPhase pj din st [{ id := callId, name := name, arguments := args }]).messages =
      some (msgs ++
        [{ role := .tool, content := none, tool_calls := none
           tool_call_id := some callId }]) := by
  refine ⟨?_, ?_, ?_⟩
  · simp [executeToolCall, hlookup]
  · intro din'
    simp [executeToolCall, hlookup]
  · obtain ⟨t1, t2, t3, t4, t5, t6⟩ :=
      toolPhase_spec pj din st [{ id := callId, name := name, arguments := args }]
        msgs hm
    rw [t1]
    simp [executeToolCall, hlookup, toolMessage, stringifyOpt]

theorem unknown_tool_not_found_witness :
    (executeToolCall noParse dinContinue
      { mkAgent addAgentCfg with messages := some [] } "missingTool" (.obj [])
      "call_9").1 =
      { status := .not_found, result? := none
        error? := some ("Tool " ++ "missingTool" ++ " not found") } ∧
    (∀ din', executeToolCall noParse din'
        { mkAgent addAgentCfg with messages := some [] } "missingTool" (.obj [])
        "call_9" =
      executeToolCall noParse dinContinue
        { mkAgent addAgentCfg with messages := some [] } "missingTool" (.obj [])
        "call_9") ∧
    (toolPhase noParse dinContinue { mkAgent addAgentCfg with messages := some [] }
      [{ id := "call_9", name := "missingTool", arguments := .obj [] }]).messages =
      some ([] ++
        [{ role := .tool, content := none, tool_calls := none
           tool_call_id := some "call_9" }]) :=
  unknown_tool_not_found noParse dinContinue
    { mkAgent addAgentCfg with messages := some [] } "missingTool" (.obj [])
    "call_9" [] rfl rfl

/-- C9 counterexample: with debugging enabled and an `@xray` tool, *skip*
does synthesize a success result without running the tool — but the
sentinel value is the string `'[debugger: skipped]'`, not `"[skipped]"` as
the claim states. -/
theorem breakpoint_skip_sentinel_counterexample :
    (executeToolCall noParse dinSkip
      { mkAgent { name := "dbg", tools := [xrayFn] } with debugEnabled := true }
      "xrayTool" (.obj []) "call_x").1.status = .success ∧
    (executeToolCall noParse dinSkip
      { mkAgent { name := "dbg", tools := [xrayFn] } with debugEnabled := true }
      "xrayTool" (.obj []) "call_x").1.result? = some (.str "[debugger: skipped]") ∧
    (executeToolCall noParse dinSkip
      { mkAgent { name := "dbg", tools := [xrayFn] } with debugEnabled := true }
      "xrayTool" (.obj []) "call_x").1.result? ≠ some (.str "[skipped]") := by
  refine ⟨rfl, rfl, ?_⟩
  intro h
  rw [show (executeToolCall noParse dinSkip
      { mkAgent { name := "dbg", tools := [xrayFn] } with debugEnabled := true }
      "xrayTool" (.obj []) "call_x").1.result? =
    some (.str "[debugger: skipped]") from rfl] at h
  injection h with h1
  injection h1 with h2
  exact absurd h2 (by decide)

/-- C9 amended: with interactive debugging enabled and a breakpoint-flagged
tool, a *skip* command produces a `success` ToolResult carrying the
sentinel `'[debugger: skipped]'` value, and the tool's `run` is never
invoked for that dispatch (the outcome is the same for every `run`, the
quantified `tool` being arbitrary). -/
theorem breakpoint_skip_amended (pj : String → Option Json) (din : DebugIn)
    (st : AgentState) (name : String) (args : Json) (callId : String)
    (tool : Tool)
    (hdbg : st.debugEnabled = true)
    (hlookup : mapGet st.toolMap name = some tool)
    (hxray : tool.xray = true)
    (hcmd : jsToLower (jsTrim din.cmdAnswer) = "s" ∨
      jsToLower (jsTrim din.cmdAnswer) = "skip") :
    (executeToolCall pj din st name args callId).1 =
      { status := .success, result? := some (.str "[debugger: skipped]")
        error? := none } ∧
    (executeToolCall pj din st name args callId).2 =
      { st with
        history := st.history ++
          [.tool_call name args
            { status := .success, result? := some (.str "[debugger: skipped]")
              error? := none } callId] } := by
  have hpause : pauseAtBreakpoint pj din args =
      Json.obj [("__skip__", Json.bool true)] := by
    rcases hcmd with h | h <;> simp [pauseAtBreakpoint, h]
  constructor <;>
    simp [executeToolCall, hlookup, hdbg, hxray, hpause, jsTruthy, jsTruthyOpt,
      getField]

theorem breakpoint_skip_amended_witness :
    (executeToolCall noParse dinSkip
      { mkAgent { name := "dbg", tools := [xrayFn] } with debugEnabled := true }
      "xrayTool" (.obj []) "call_x").1 =
      { status := .success, result? := some (.str "[debugger: skipped]")
        error? := none } ∧
    (executeToolCall noParse dinSkip
      { mkAgent { name := "dbg", tools := [xrayFn] } with debugEnabled := true }
      "xrayTool" (.obj []) "call_x").2 =
      { ({ mkAgent { name := "dbg", tools := [xrayFn] } with
            debugEnabled := true } : AgentState) with
        history := ({ mkAgent { name := "dbg", tools := [xrayFn] } with
            debugEnabled := true } : AgentState).history ++
          [.tool_call "xrayTool" (.obj [])
            { status := .success, result? := some (.str "[debugger: skipped]")
              error? := none } "call_x"] } :=
  breakpoint_skip_amended noParse dinSkip
    { mkAgent { name := "dbg", tools := [xrayFn] } with debugEnabled := true }
    "xrayTool" (.obj []) "call_x" xrayFn rfl rfl rfl (Or.inl rfl)

/-! ## Helper lemmas: JS Map registry -/

theorem addTool_eq (st : AgentState) (t : Tool) :
    addTool st t =
      { st with tools := st.tools ++ [t], toolMap := mapSet st.toolMap t.name t } :=
  rfl

theorem mapGet_mapSet_self (m : List (String × Tool)) (k : String) (v : Tool) :
    mapGet (mapSet m k v) k = some v := by
  induction m with
  | nil => simp [mapSet, mapGet]
  | cons p rest ih =>
      by_cases h : p.1 = k
      · simp [mapSet, mapGet, h]
      · simp [mapSet, mapGet, h, ih]

theorem mem_keys_mapSet (m : List (String × Tool)) (k : String) (v : Tool)
    (x : String) (hx : x ∈ (mapSet m k v).map Prod.fst) :
    x ∈ m.map Prod.fst ∨ x = k := by
  induction m with
  | nil => simpa [mapSet] using hx
  | cons p rest ih =>
      by_cases h : p.1 = k
      · simp only [mapSet, h, if_true, List.map_cons, List.mem_cons] at hx ⊢
        rcases hx with hx | hx
        · exact Or.inr hx
        · exact Or.inl (Or.inr hx)
      · simp only [mapSet, h, if_false, List.map_cons, List.mem_cons] at hx ⊢
        rcases hx with hx | hx
        · exact Or.inl (Or.inl hx)
        · rcases ih hx with hx' | hx'
          · exact Or.inl (Or.inr hx')
          · exact Or.inr hx'

theorem keys_nodup_mapSet (m : List (String × Tool)) (k : String) (v : Tool)
    (hnd : (m.map Prod.fst).Nodup) : ((mapSet m k v).map Prod.fst).Nodup := by
  induction m with
  | nil => simp [mapSet]
  | cons p rest ih =>
      simp only [List.map_cons, List.nodup_cons] at hnd
      by_cases h : p.1 = k
      · simp only [mapSet, h, if_true, List.map_cons, List.nodup_cons]
        exact ⟨h ▸ hnd.1, hnd.2⟩
      · simp only [mapSet, h, if_false, List.map_cons, List.nodup_cons]
        refine ⟨?_, ih hnd.2⟩
        intro hmem
        rcases mem_keys_mapSet rest k v p.1 hmem with h' | h'
        · exact hnd.1 h'
        · exact h h'

theorem mem_keys_mapSet_self (m : List (String × Tool)) (k : String) (v : Tool) :
    k ∈ (mapSet m k v).map Prod.fst := by
  induction m with
  | nil => simp [mapSet]
  | cons p rest ih =>
      by_cases h : p.1 = k
      · simp [mapSet, h]
      · simp only [mapSet, h, if_false, List.map_cons, List.mem_cons]
        exact Or.inr ih

/-- C3 counterexample: registering two tools under the same name `dup` (via
`addTool`) leaves TWO entries for that name in the agent's tool list, so
the schemas offered to the provider list the colliding name twice — the
claim's "exactly one entry" is false for the registry's tool collection. -/
theorem registry_duplicate_keeps_both_counterexample :
    ((addTool (addTool emptyAgent dupA) dupB).tools.filter
      (fun t => t.name == "dup")).length = 2 ∧
    ((addTool (addTool emptyAgent dupA) dupB).tools.filter
      (fun t => t.name == "dup")).length ≠ 1 ∧
    ((addTool (addTool emptyAgent dupA) dupB).tools.map Tool.toFunctionSchema) =
      [dupSchemaA, dupSchemaB] := by
  refine ⟨rfl, by decide, rfl⟩

/-- C3 amended: after registering two same-named tools in sequence, the
name-keyed lookup map holds exactly one entry for that name — the second
registration (last wins, no error is raised) — so that dispatch resolves to
the second tool; the agent's tool array, however, retains both
registrations in order, so `getTools()`/the provider-facing schema list
mention the name twice. -/
theorem registry_last_wins_amended (st : AgentState) (t1 t2 : Tool)
    (hname : t1.name = t2.name)
    (hnd : (st.toolMap.map Prod.fst).Nodup) :
    mapGet (addTool (addTool st t1) t2).toolMap t2.name = some t2 ∧
    ((addTool (addTool st t1) t2).toolMap.map Prod.fst).count t2.name = 1 ∧
    (addTool (addTool st t1) t2).tools = st.tools ++ [t1, t2] := by
  rw [addTool_eq, addTool_eq]
  refine ⟨mapGet_mapSet_self _ _ _, ?_, by simp⟩
  have hnd1 : ((mapSet st.toolMap t1.name t1).map Prod.fst).Nodup :=
    keys_nodup_mapSet st.toolMap t1.name t1 hnd
  have hnd2 : ((mapSet (mapSet st.toolMap t1.name t1) t2.name t2).map
      Prod.fst).Nodup :=
    keys_nodup_mapSet _ t2.name t2 hnd1
  exact List.count_eq_one_of_mem hnd2 (mem_keys_mapSet_self _ t2.name t2)

theorem registry_last_wins_amended_witness :
    mapGet (addTool (addTool emptyAgent dupA) dupB).toolMap dupB.name = some dupB ∧
    ((addTool (addTool emptyAgent dupA) dupB).toolMap.map Prod.fst).count
      dupB.name = 1 ∧
    (addTool (addTool emptyAgent dupA) dupB).tools = emptyAgent.tools ++ [dupA, dupB] :=
  registry_last_wins_amended emptyAgent dupA dupB rfl (by simp [emptyAgent, mkAgent,
    processTools, mapFromTools])

/-- C5 counterexample: when the provider call itself throws, `input()`
aborts with that error and NO completion record is written to the behavior
log — `addOutput` sits after the loop with no try/finally, so the claim's
"regardless of outcome — including provider failure" is false. -/
theorem completion_record_missing_on_provider_failure :
    (Agent.input llmFail noParse dinContinue (mkAgent addAgentCfg) "hi" none).2 =
      .error "provider down" ∧
    countOutputs (Agent.input llmFail noParse dinContinue (mkAgent addAgentCfg)
      "hi" none).1.history = 0 :=
  ⟨rfl, rfl⟩

/-- C5 amended: a completion record (final-output event) is written exactly
when the `input()` invocation returns normally — on terminal text and on
iteration exhaustion — and not when a provider failure propagates: the
output count grows by one iff the invocation's result is `.ok`. -/
theorem completion_record_iff_normal_return (llm : LLMFun)
    (pj : String → Option Json) (din : DebugIn) (st : AgentState)
    (prompt : String) (mi : Option Nat) :
    countOutputs (Agent.input llm pj din st prompt mi).1.history =
      countOutputs st.history +
        (if isOkB (Agent.input llm pj din st prompt mi).2 then 1 else 0) := by
  obtain ⟨p1, p2, p3, p4, p5, p6⟩ := inputPrep_spec st prompt
  have hro := runIterations_countOut llm pj din
    ((inputPrep st prompt).tools.map Tool.toFunctionSchema)
    (jsOrNat mi st.maxIterations) (inputPrep st prompt)
  cases hr : (runIterations llm pj din
      ((inputPrep st prompt).tools.map Tool.toFunctionSchema)
      (jsOrNat mi st.maxIterations) (inputPrep st prompt)).2 with
  | error e =>
      simp only [Agent.input, hr, isOkB]
      rw [hro, p6]
      simp
  | ok s =>
      simp only [Agent.input, hr, isOkB, countOut_append]
      rw [hro, p6]
      simp [countOutputs, isOutput]

/-- C6: for every tool call dispatched in a turn, exactly one `tool`-role
message is appended whose `tool_call_id` equals the originating call's id,
and any appended message bearing that id carries the serialization of that
call's dispatch result value. -/
theorem one_tool_message_per_call (pj : String → Option Json) (din : DebugIn)
    (st : AgentState) (calls : List ToolCall) (msgs : List Message) (c : ToolCall)
    (hm : st.messages = some msgs)
    (hnd : (calls.map ToolCall.id).Nodup)
    (hc : c ∈ calls) :
    (toolPhase pj din st calls).messages =
      some (msgs ++ turnToolMessages pj din st calls) ∧
    ((turnToolMessages pj din st calls).filter
      (fun m => m.tool_call_id == some c.id)).length = 1 ∧
    ∀ m ∈ turnToolMessages pj din st calls, m.tool_call_id = some c.id →
      m.content =
        stringifyOpt (executeToolCall pj din st c.name c.arguments c.id).1.result? := by
  refine ⟨?_, ?_, ?_⟩
  · obtain ⟨t1, t2, t3, t4, t5, t6⟩ := toolPhase_spec pj din st calls msgs hm
    rw [t1]
    rfl
  · unfold turnToolMessages
    rw [List.map_filter]
    rw [List.length_map]
    have hfc : calls.filter
        ((fun m => m.tool_call_id == some c.id) ∘
          fun c' =>
            toolMessage (executeToolCall pj din st c'.name c'.arguments c'.id).1
              c'.id) =
        calls.filter (fun c' => c'.id == c.id) :=
      List.filter_congr (fun c' _ => rfl)
    rw [hfc]
    have hcount : (calls.map ToolCall.id).count c.id = 1 :=
      List.count_eq_one_of_mem hnd (List.mem_map_of_mem ToolCall.id hc)
    rw [List.count, List.countP_map] at hcount
    rw [← List.countP_eq_length_filter]
    exact hcount
  · intro m hmem hid
    unfold turnToolMessages at hmem
    obtain ⟨c', hc', hmc⟩ := List.mem_map.mp hmem
    have hid' : c'.id = c.id := by
      rw [← hmc] at hid
      exact Option.some.inj hid
    have hcc : c' = c := List.inj_on_of_nodup_map hnd hc' hc hid'
    rw [← hmc, hcc]
    rfl

theorem one_tool_message_per_call_witness :
    ((toolPhase noParse dinContinue stWithAdd [addCall]).messages =
      some ([] ++ turnToolMessages noParse dinContinue stWithAdd [addCall]) ∧
    ((turnToolMessages noParse dinContinue stWithAdd [addCall]).filter
      (fun m => m.tool_call_id == some addCall.id)).length = 1 ∧
    ∀ m ∈ turnToolMessages noParse dinContinue stWithAdd [addCall],
      m.tool_call_id = some addCall.id →
      m.content =
        stringifyOpt (executeToolCall noParse dinContinue stWithAdd addCall.name
          addCall.arguments addCall.id).1.result?) ∧
    turnToolMessages noParse dinContinue stWithAdd [addCall] =
      [{ role := .tool, content := some "8", tool_calls := none
         tool_call_id := some "call_add_1" }] :=
  ⟨one_tool_message_per_call noParse dinContinue stWithAdd [addCall] [] addCall
      rfl (by decide) (List.mem_singleton.mpr rfl),
    rfl⟩

/-- C4: within one turn, whatever the settlement order of the concurrent
dispatches, every requested call's result message occurs in the turn's
event trace strictly before the next provider call — the fan-in barrier
(`await Promise.all`) releases the appends, in input order, before the loop
re-enters the provider — and the messages carried by those append events
are exactly the `tool` messages the turn adds to the conversation. -/
theorem fanin_barrier_before_next_provider_call (pj : String → Option Json)
    (din : DebugIn) (st : AgentState) (calls : List ToolCall)
    (order : List (Fin calls.length)) (msgs : List Message)
    (hm : st.messages = some msgs)
    (hperm : order.Perm (List.finRange calls.length)) (i : Fin calls.length) :
    (∃ j, (turnTrace pj din st calls order).get? j =
        some (.appended i.val
          (toolMessage (resultOfCall pj din st calls i) (calls.get i).id)) ∧
      ∀ k, (turnTrace pj din st calls order).get? k = some .providerCalled →
        j < k) ∧
    (toolPhase pj din st calls).messages =
      some (msgs ++ (List.finRange calls.length).map
        (fun i' => toolMessage (resultOfCall pj din st calls i') (calls.get i').id)) := by
  have hn : order.length = calls.length := by
    rw [hperm.length_eq, List.length_finRange]
  constructor
  · refine ⟨order.length + i.val, ?_, ?_⟩
    · unfold turnTrace
      have hlenAB : (order.map (fun i' =>
          TurnEvent.settled i'.val (resultOfCall pj din st calls i'))).length =
          order.length := List.length_map _ _
      have hj1 : (order.map (fun i' =>
          TurnEvent.settled i'.val (resultOfCall pj din st calls i'))).length ≤
          order.length + i.val := by omega
      rw [List.append_assoc, List.get?_append_right hj1, hlenAB,
        Nat.add_sub_cancel_left]
      have hj2 : i.val < ((List.finRange calls.length).map (fun i' =>
          TurnEvent.appended i'.val
            (toolMessage (resultOfCall pj din st calls i') (calls.get i').id))).length := by
        rw [List.length_map, List.length_finRange]
        exact i.isLt
      rw [List.get?_append hj2, List.get?_map]
      have hfr : (List.finRange calls.length).get? i.val = some i := by
        rw [List.get?_eq_get (by simp [List.length_finRange])]
        simp [List.get_finRange]
      rw [hfr]
      rfl
    · intro k hk
      unfold turnTrace at hk
      rw [List.append_assoc] at hk
      by_cases h1 : k < (order.map (fun i' =>
          TurnEvent.settled i'.val (resultOfCall pj din st calls i'))).length
      · rw [List.get?_append h1, List.get?_map] at hk
        cases ho : order.get? k with
        | none => rw [ho] at hk; exact absurd hk (by simp)
        | some i' =>
            rw [ho] at hk
            exact TurnEvent.noConfusion (Option.some.inj hk)
      · rw [List.get?_append_right (le_of_not_lt h1)] at hk
        by_cases h2 : k - (order.map (fun i' =>
            TurnEvent.settled i'.val (resultOfCall pj din st calls i'))).length <
            ((List.finRange calls.length).map (fun i' =>
              TurnEvent.appended i'.val
                (toolMessage (resultOfCall pj din st calls i')
                  (calls.get i').id))).length
        · rw [List.get?_append h2, List.get?_map] at hk
          cases ho : (List.finRange calls.length).get? (k - (order.map (fun i' =>
              TurnEvent.settled i'.val (resultOfCall pj din st calls i'))).length) with
          | none => rw [ho] at hk; exact absurd hk (by simp)
          | some i' =>
              rw [ho] at hk
              exact TurnEvent.noConfusion (Option.some.inj hk)
        · rw [List.length_map] at h1 h2
          rw [List.length_map, List.length_finRange] at h2
          have := i.isLt
          omega
  · obtain ⟨t1, t2, t3, t4, t5, t6⟩ := toolPhase_spec pj din st calls msgs hm
    rw [t1]
    have : calls.map (fun c =>
        toolMessage (executeToolCall pj din st c.name c.arguments c.id).1 c.id) =
        (List.finRange calls.length).map
          (fun i' => toolMessage (resultOfCall pj din st calls i') (calls.get i').id) := by
      conv_lhs => rw [← List.finRange_map_get calls]
      rw [List.map_map]
      rfl
    rw [this]

theorem fanin_barrier_before_next_provider_call_witness :
    (∃ j, (turnTrace noParse dinContinue stWithAdd [addCall, missCall]
        [⟨1, by decide⟩, ⟨0, by decide⟩]).get? j =
        some (.appended (⟨0, by decide⟩ : Fin [addCall, missCall].length).val
          (toolMessage (resultOfCall noParse dinContinue stWithAdd
            [addCall, missCall] (⟨0, by decide⟩ : Fin [addCall, missCall].length))
            ([addCall, missCall].get (⟨0, by decide⟩ : Fin [addCall, missCall].length)).id)) ∧
      ∀ k, (turnTrace noParse dinContinue stWithAdd [addCall, missCall]
          [⟨1, by decide⟩, ⟨0, by decide⟩]).get? k = some .providerCalled →
        j < k) ∧
    (toolPhase noParse dinContinue stWithAdd [addCall, missCall]).messages =
      some ([] ++ (List.finRange [addCall, missCall].length).map
        (fun i' => toolMessage (resultOfCall noParse dinContinue stWithAdd
          [addCall, missCall] i') ([addCall, missCall].get i').id)) :=
  fanin_barrier_before_next_provider_call noParse dinContinue stWithAdd
    [addCall, missCall] [⟨1, by decide⟩, ⟨0, by decide⟩] [] rfl (by decide)
    (⟨0, by decide⟩ : Fin [addCall, missCall].length)

end ConnectOnion
